import Mathlib

/-!
Verification of the cacaluploader calendar synchronizer.

Shallow embedding of:
* `src/cacaluploader/event.py` (`Event`)
* `src/cacaluploader/synchronizer.py` (`CampusCalendarUploader._upload_events`, `upload`)
* `src/cacaluploader/upload_adapters.py` (`CalDAVUploadAdapter` identity encoding/decoding)
* `src/cacaluploader/source_adapters.py` (`CalendarSourceAdapter.start_time` / `end_time`,
  `CampusCalenderAdapter.start_time` / `end_time`)
* `src/calendarsync/exceptions.py` (exception hierarchy)
* the `CalendarSynchronizer` of the `calendarsync` package, which
  `src/calendarsync/__init__.py` imports but whose module is not present;
  it is modelled from the spec where needed.

Timezone-aware datetimes are totally ordered instants; they are embedded as `Int`.
-/

/-- `src/cacaluploader/event.py`: `Event.__init__` stores uid, cal_uid (the source
field is spelled `calender_uid`), title, start_time, end_time, location. -/
structure Event where
  uid : String
  calenderUid : Option String
  title : String
  startTime : Int
  endTime : Int
  location : String
deriving DecidableEq

/-- CPython `list.remove(x)`: removes the first element equal to `x`,
raises `ValueError` (here `none`) if no such element is present. -/
def pyRemove {α : Type} [DecidableEq α] (l : List α) (a : α) : Option (List α) :=
  if a ∈ l then some (l.erase a) else none

/-- One iteration of the loop in `synchronizer.py` lines 111-115:
`if new.uid == old_id: events.remove(new); old_event_ids.remove(old_id); n += 1`.
The state is `(events, old_event_ids, n)`; `none` models an uncaught `ValueError`. -/
def diffStep (st : List Event × List String × Nat) (p : Event × String) :
    Option (List Event × List String × Nat) :=
  if p.1.uid = p.2 then
    match pyRemove st.1 p.1, pyRemove st.2.1 p.2 with
    | some evs, some olds => some (evs, olds, st.2.2 + 1)
    | _, _ => none
  else
    some st

/-- The `for (new, old_id) in itertools.product(events, old_event_ids)` loop:
the pair sequence is fixed up front (CPython's `itertools.product` consumes its
arguments eagerly), while removals act on the evolving state. -/
def diffLoop : List (Event × String) → List Event × List String × Nat →
    Option (List Event × List String × Nat)
  | [], st => some st
  | p :: ps, st =>
    match diffStep st p with
    | none => none
    | some st' => diffLoop ps st'

/-- `itertools.product(events, old_event_ids)`: all pairs, first factor outermost. -/
def productPairs (events : List Event) (olds : List String) : List (Event × String) :=
  events.flatMap fun e => olds.map fun o => (e, o)

/-- The source events of the matching pass that were matched against a target id:
those whose uid occurs in the retrieved id list. -/
def matchedEvents (T : List String) (S : List Event) : List Event :=
  S.filter fun e => decide (e.uid ∈ T)

/-- `CampusCalendarUploader._upload_events` (synchronizer.py lines 99-141) reduced to
its effect on the upload calendar: after the matching pass, the remaining
`old_event_ids` are deleted (in list order) and the remaining `events` are added
(in list order).  Returns `(deletes, adds, n)`; `none` models the `ValueError`
the matching pass can raise. -/
def uploadEvents (events : List Event) (oldIds : List String) :
    Option (List String × List Event × Nat) :=
  match diffLoop (productPairs events oldIds) (events, oldIds, 0) with
  | none => none
  | some (evs, olds, n) => some (olds, evs, n)

/-- Calls `_upload_events` makes on the upload calendar adapter
(retrieve_event_ids, delete_event, add_event), in order. -/
inductive AdapterCall where
  | retrieveIds (startT endT : Int)
  | deleteEvent (uid : String)
  | addEvent (uid title : String) (startT endT : Int) (location : String)
deriving DecidableEq

/-- The adapter-call trace of one `_upload_events` run: `retrieve_event_ids(start, end)`
(line 109), then one `delete_event(uid)` per remaining old id (lines 126-128), then one
`add_event(ev.uid, ev.title, ev.start_time, ev.end_time, ev.location)` per remaining
event (lines 137-139). -/
def uploadEventsTrace (startT endT : Int) (events : List Event) (oldIds : List String) :
    Option (List AdapterCall) :=
  match uploadEvents events oldIds with
  | none => none
  | some (dels, adds, _) =>
    some (AdapterCall.retrieveIds startT endT ::
      (dels.map AdapterCall.deleteEvent ++
       adds.map fun ev => AdapterCall.addEvent ev.uid ev.title ev.startTime ev.endTime ev.location))

def isDeleteCall : AdapterCall → Bool
  | .deleteEvent _ => true
  | _ => false

def isAddCall : AdapterCall → Bool
  | .addEvent _ _ _ _ _ => true
  | _ => false

/-- `upload` binds `events = campus_cal.events`; the `events` property of
`CalendarSourceAdapter` (source_adapters.py lines 37-47) returns the cached
`self._events` list itself, without copying, and the matching pass removes matched
events from that same list object in place (synchronizer.py line 113).  The source
adapter's cache after a successful run is therefore the diff's remaining event list. -/
def cacheAfterUpload (S : List Event) (T : List String) : Option (List Event) :=
  match diffLoop (productPairs S T) (S, T, 0) with
  | none => none
  | some (evs, _, _) => some evs

/-- `CalendarSourceAdapter.start_time` (source_adapters.py lines 49-58):
`first = None; for e in self.events: if first is None or e.start_time < first:
first = e.start_time; return first`. -/
def sourceStartTime (events : List Event) : Option Int :=
  events.foldl
    (fun first e =>
      match first with
      | none => some e.startTime
      | some f => if e.startTime < f then some e.startTime else some f)
    none

/-- `CalendarSourceAdapter.end_time` (source_adapters.py lines 60-69):
`last = None; for e in self.events: if last is None or last < e.end_time:
last = e.end_time; return last`. -/
def sourceEndTime (events : List Event) : Option Int :=
  events.foldl
    (fun last e =>
      match last with
      | none => some e.endTime
      | some l => if l < e.endTime then some e.endTime else some l)
    none

/-- `CampusCalenderAdapter` state: the configured query period saved by `__init__`
and the cached event list. -/
structure CampusAdapterState where
  cfgStartTime : Int
  cfgEndTime : Int
  events : List Event
deriving DecidableEq

/-- `CampusCalenderAdapter.start_time` (source_adapters.py lines 163-165) overrides
the base property: `return self._start_time`, the configured period start. -/
def campusStartTime (a : CampusAdapterState) : Int := a.cfgStartTime

/-- `CampusCalenderAdapter.end_time` (source_adapters.py lines 167-169) overrides
the base property: `return self._end_time`, the configured period end. -/
def campusEndTime (a : CampusAdapterState) : Int := a.cfgEndTime

/-- `CalendarUploadAdapter._separator = '-|-'` (upload_adapters.py line 15). -/
def sepChars : List Char := ['-', '|', '-']

/-- CPython `str.split('-|-')` on the character list: scan left to right, cut at
each non-overlapping occurrence of the separator.  `''.split(sep) == ['']`. -/
def pySplit (s : List Char) : List (List Char) :=
  match s with
  | [] => [[]]
  | c :: rest =>
    if sepChars.isPrefixOf (c :: rest) then
      -- a separator occurrence starts here: cut, then continue after its 3 chars
      [] :: pySplit (rest.drop 2)
    else
      match pySplit rest with
      | [] => [[c]]
      | chunk :: chunks => (c :: chunk) :: chunks
termination_by s.length
decreasing_by
  · simp only [List.length_cons, List.length_drop]
    omega
  · simp

/-- `CalDAVUploadAdapter.add_event` (upload_adapters.py line 117) writes the wire
uid `event.calender_uid + '-|-' + event.uid`. -/
def encodeIdentity (calUid uid : List Char) : List Char := calUid ++ sepChars ++ uid

/-- The extractor of `CalDAVUploadAdapter.retrieve_event_ids` (upload_adapters.py
lines 88-93): `splitted_id = raw_id.split('-|-'); if len(splitted_id) == 1:
splitted_id.insert(0, None); return tuple(splitted_id)`.  The Python tuple of
str-or-None components is a `List (Option (List Char))`. -/
def decodeIdentity (s : List Char) : List (Option (List Char)) :=
  if (pySplit s).length = 1 then
    none :: (pySplit s).map some
  else
    (pySplit s).map some

/-- `src/calendarsync/exceptions.py`: the eight exception classes of the module. -/
inductive ExcClass where
  | calendarSynchronizerError
  | sourceRetrievalError
  | invalidCredentialsError
  | uploadCalendarError
  | calendarConnectionError
  | eventRetrievalError
  | eventDeletionError
  | eventUploadError
deriving DecidableEq

/-- The direct base class of each class, read off the `class X(Y)` headers of
`src/calendarsync/exceptions.py`; the root extends Python's `Exception`. -/
def superclassOf : ExcClass → Option ExcClass
  | .calendarSynchronizerError => none
  | .sourceRetrievalError => some .calendarSynchronizerError
  | .invalidCredentialsError => some .sourceRetrievalError
  | .uploadCalendarError => some .calendarSynchronizerError
  | .calendarConnectionError => some .uploadCalendarError
  | .eventRetrievalError => some .uploadCalendarError
  | .eventDeletionError => some .uploadCalendarError
  | .eventUploadError => some .uploadCalendarError

/-- Reflexive-transitive closure of the subclass relation. -/
inductive DerivesFrom : ExcClass → ExcClass → Prop where
  | refl (c : ExcClass) : DerivesFrom c c
  | step {c d e : ExcClass} : superclassOf c = some d → DerivesFrom d e → DerivesFrom c e

/-- The composite identity of an event: `(calendar uid, event uid)` (spec §3). -/
def identityOf (e : Event) : Option String × String := (e.calenderUid, e.uid)

/-- Spec §4.3 step 5: target identities with no matching source event are stale. -/
def staleIdentities (evs : List Event) (T : List (Option String × String)) :
    List (Option String × String) :=
  T.filter fun t => decide (t ∉ evs.map identityOf)

/-- Spec §4.3 step 5: source events whose identity is absent from the target are new. -/
def newEvents (evs : List Event) (T : List (Option String × String)) : List Event :=
  evs.filter fun e => decide (identityOf e ∉ T)

/-- Calls the spec's Synchronizer makes, in order (fetch on the source, the rest on
the upload calendar). -/
inductive SyncCall where
  | fetchSource
  | connectTarget
  | listIdentities (startT endT : Int)
  | deleteIdentity (id : Option String × String)
  | addEvent (ev : Event)
deriving DecidableEq

def isListCallS : SyncCall → Bool
  | .listIdentities _ _ => true
  | _ => false

def isDeleteCallS : SyncCall → Bool
  | .deleteIdentity _ => true
  | _ => false

def isAddCallS : SyncCall → Bool
  | .addEvent _ => true
  | _ => false

/-- Run a backend operation for each element in order, stopping at the first
failure (spec §4.3: abort-on-first-failure, no retry).  Returns the outcome and
the calls issued. -/
def applyAll {α : Type} (f : α → Except ExcClass Unit) (mk : α → SyncCall) :
    List α → Except ExcClass Unit × List SyncCall
  | [] => (Except.ok (), [])
  | x :: xs =>
    match f x with
    | Except.error ε => (Except.error ε, [mk x])
    | Except.ok _ =>
      let r := applyAll f mk xs
      (r.1, mk x :: r.2)

/-- Modelled from the spec: `CalendarSynchronizer.synchronize` of the `calendarsync`
package.  `src/calendarsync/__init__.py` imports `CalendarSynchronizer` from
`.synchronizer`, but that module is not under `src/`.  Spec §4.3: (1) fetch source
events, (2) connect the target, (3) if the source produced zero events skip scoped
deletion (and listing) entirely, otherwise use `spanStart()`/`spanEnd()` as the
window, (4) list target identities in that window, (5) key-based diff, (6) delete
stale identities then add new events; any failure aborts immediately and propagates
typed.  Backend outcomes are supplied as oracles; the result is the run outcome
and the issued call trace. -/
def synchronize (fetchRes : Except ExcClass (List Event))
    (connectRes : Except ExcClass Unit)
    (listRes : Except ExcClass (List (Option String × String)))
    (deleteRes : Option String × String → Except ExcClass Unit)
    (addRes : Event → Except ExcClass Unit) :
    Except ExcClass Unit × List SyncCall :=
  match fetchRes with
  | Except.error ε => (Except.error ε, [SyncCall.fetchSource])
  | Except.ok evs =>
    match connectRes with
    | Except.error ε => (Except.error ε, [SyncCall.fetchSource, SyncCall.connectTarget])
    | Except.ok _ =>
      if evs = [] then
        (Except.ok (), [SyncCall.fetchSource, SyncCall.connectTarget])
      else
        let spanS := (sourceStartTime evs).getD 0
        let spanE := (sourceEndTime evs).getD 0
        let pre := [SyncCall.fetchSource, SyncCall.connectTarget,
                    SyncCall.listIdentities spanS spanE]
        match listRes with
        | Except.error ε => (Except.error ε, pre)
        | Except.ok T =>
          let dres := applyAll deleteRes SyncCall.deleteIdentity (staleIdentities evs T)
          match dres.1 with
          | Except.error ε => (Except.error ε, pre ++ dres.2)
          | Except.ok _ =>
            let ares := applyAll addRes SyncCall.addEvent (newEvents evs T)
            (ares.1, pre ++ dres.2 ++ ares.2)

/-- Modelled from the spec: the upload calendar's event identities, as the
composite pairs `(calendarUid | absent, uid)` of spec section 3, split into the
identities of events inside the queried window - exactly what
`listEventIdentities(start, end)` returns (spec section 4.2) - and those of
events outside it. -/
structure UploadTargetState where
  inWindow : List (Option String × String)
  outWindow : List (Option String × String)
deriving DecidableEq

/-- Modelled from the spec: the effect of the synchronizer's issued calls on the
upload calendar (spec section 4.2).  `deleteEvent(identity)` removes the event
matching that identity - a listed, hence in-window, event (the concrete CalDAV
adapter likewise deletes among `self.events`, its window search results; no-op
when absent).  `addEvent(event)` creates a new target event in the fetched window
encoding the full composite identity, so it can be matched on a future run.
Fetch, connect and list calls do not modify the target. -/
def applyCalls (t : UploadTargetState) : List SyncCall → UploadTargetState
  | [] => t
  | SyncCall.deleteIdentity i :: rest =>
    applyCalls { inWindow := t.inWindow.filter fun x => decide (x ≠ i),
                 outWindow := t.outWindow } rest
  | SyncCall.addEvent e :: rest =>
    applyCalls { inWindow := t.inWindow ++ [identityOf e],
                 outWindow := t.outWindow } rest
  | SyncCall.fetchSource :: rest => applyCalls t rest
  | SyncCall.connectTarget :: rest => applyCalls t rest
  | SyncCall.listIdentities _ _ :: rest => applyCalls t rest

/-- Modelled from the spec: the target state left by one fully successful run of
the spec's `CalendarSynchronizer` (module absent from `src/`) whose listing
returned the target's in-window identities. -/
def runTarget (S : List Event) (t : UploadTargetState) : UploadTargetState :=
  applyCalls t (synchronize (Except.ok S) (Except.ok ()) (Except.ok t.inWindow)
    (fun _ => Except.ok ()) (fun _ => Except.ok ())).2

/-- A concrete event used by counterexamples and witnesses. -/
def exEvent (u : String) : Event :=
  { uid := u, calenderUid := none, title := "t", startTime := 0, endTime := 1, location := "" }

/-- A concrete event carrying content that differs from anything previously
uploaded, while keeping uid 1. -/
def changedEvent : Event :=
  { uid := "1", calenderUid := none, title := "changed", startTime := 7,
    endTime := 9, location := "elsewhere" }

/-- Concrete `CampusCalenderAdapter` state: configured period 100-200, one cached
event running from 5 to 6. -/
def c9ex : CampusAdapterState :=
  { cfgStartTime := 100, cfgEndTime := 200,
    events := [{ uid := "1", calenderUid := none, title := "t", startTime := 5,
                 endTime := 6, location := "" }] }

theorem diffLoop_append (ps qs : List (Event × String))
    (st : List Event × List String × Nat) :
    diffLoop (ps ++ qs) st = (diffLoop ps st).bind (diffLoop qs) := by
  induction ps generalizing st with
  | nil => simp [diffLoop]
  | cons p ps ih =>
    simp only [List.cons_append, diffLoop]
    cases diffStep st p with
    | none => rfl
    | some st2 => exact ih st2

theorem diffLoop_inner_no_match (e : Event) (os : List String)
    (st : List Event × List String × Nat) (h : ∀ o ∈ os, e.uid ≠ o) :
    diffLoop (os.map fun o => (e, o)) st = some st := by
  induction os with
  | nil => rfl
  | cons o os ih =>
    simp only [List.map_cons, diffLoop, diffStep]
    rw [if_neg (h o (by simp))]
    exact ih fun o' ho' => h o' (by simp [ho'])

theorem diffLoop_inner_match (e : Event) (os : List String) (evs : List Event)
    (olds : List String) (n : Nat) (hnd : os.Nodup) (hmem : e.uid ∈ os)
    (hev : e ∈ evs) (hold : e.uid ∈ olds) :
    diffLoop (os.map fun o => (e, o)) (evs, olds, n) =
      some (evs.erase e, olds.erase e.uid, n + 1) := by
  induction os with
  | nil => cases hmem
  | cons o os ih =>
    simp only [List.map_cons, diffLoop, diffStep]
    by_cases ho : e.uid = o
    · subst ho
      rw [if_pos rfl]
      simp only [pyRemove]
      rw [if_pos hev, if_pos hold]
      exact diffLoop_inner_no_match e os _ fun o' ho' h2 =>
        (List.nodup_cons.mp hnd).1 (by rw [h2]; exact ho')
    · rw [if_neg ho]
      exact ih (List.nodup_cons.mp hnd).2 ((List.mem_cons.mp hmem).resolve_left ho)

theorem diffLoop_outer (T : List String) (hT : T.Nodup) (S : List Event)
    (evs : List Event) (olds : List String) (n : Nat)
    (hS : (S.map Event.uid).Nodup) (hevs : evs.Nodup) (holds : olds.Nodup)
    (h3 : ∀ e, e ∈ S → e ∈ evs) (h4 : ∀ e, e ∈ S → e.uid ∈ T → e.uid ∈ olds) :
    diffLoop (S.flatMap fun e => T.map fun o => (e, o)) (evs, olds, n) =
      some (evs.filter fun x => decide (x ∉ matchedEvents T S),
            olds.filter fun o => decide (o ∉ (matchedEvents T S).map Event.uid),
            n + (matchedEvents T S).length) := by
  induction S generalizing evs olds n with
  | nil => simp [diffLoop, matchedEvents]
  | cons e S' ih =>
    have hS' : (S'.map Event.uid).Nodup := (List.nodup_cons.mp (by simpa using hS)).2
    have huid : e.uid ∉ S'.map Event.uid := (List.nodup_cons.mp (by simpa using hS)).1
    simp only [List.flatMap_cons, diffLoop_append]
    by_cases he : e.uid ∈ T
    · rw [diffLoop_inner_match e T evs olds n hT he (h3 e (by simp))
        (h4 e (by simp) he)]
      have hne : ∀ e', e' ∈ S' → e' ≠ e := by
        intro e' he' heq
        apply huid
        rw [← heq]
        exact List.mem_map_of_mem Event.uid he'
      have hneUid : ∀ e', e' ∈ S' → e'.uid ≠ e.uid := by
        intro e' he' heq
        apply huid
        rw [← heq]
        exact List.mem_map_of_mem Event.uid he'
      rw [Option.some_bind]
      rw [ih ((evs.erase e)) ((olds.erase e.uid)) (n + 1) hS'
        (hevs.erase e) (holds.erase e.uid)
        (fun e' he' => (List.mem_erase_of_ne (hne e' he')).mpr (h3 e' (by simp [he'])))
        (fun e' he' ht => (List.mem_erase_of_ne (hneUid e' he')).mpr
          (h4 e' (by simp [he']) ht))]
      have hmc : matchedEvents T (e :: S') = e :: matchedEvents T S' := by
        simp [matchedEvents, List.filter_cons, he]
      have h5 := hevs.erase_eq_filter e
      have h6 := holds.erase_eq_filter e.uid
      rw [hmc, h5, h6, List.filter_filter, List.filter_filter]
      simp only [Option.some.injEq, Prod.mk.injEq]
      refine ⟨?_, ?_, ?_⟩
      · apply List.filter_congr
        intro x _
        by_cases h1 : x = e <;> by_cases h2 : x ∈ matchedEvents T S' <;>
          simp [h1, h2]
      · apply List.filter_congr
        intro o _
        by_cases h1 : o = e.uid <;>
          by_cases h2 : o ∈ (matchedEvents T S').map Event.uid <;>
            simp [h1, h2]
      · simp only [List.length_cons]
        omega
    · rw [diffLoop_inner_no_match e T _
        (fun o ho h2 => he (by rw [h2]; exact ho))]
      rw [Option.some_bind]
      rw [ih evs olds n hS' hevs holds
        (fun e' he' => h3 e' (by simp [he']))
        (fun e' he' ht => h4 e' (by simp [he']) ht)]
      have hmc : matchedEvents T (e :: S') = matchedEvents T S' := by
        simp [matchedEvents, List.filter_cons, he]
      rw [hmc]

theorem diffLoop_closed (S : List Event) (T : List String)
    (hS : (S.map Event.uid).Nodup) (hT : T.Nodup) :
    diffLoop (productPairs S T) (S, T, 0) =
      some (S.filter fun e => decide (e.uid ∉ T),
            T.filter fun o => decide (o ∉ S.map Event.uid),
            (matchedEvents T S).length) := by
  have hSnd : S.Nodup := hS.of_map
  rw [productPairs, diffLoop_outer T hT S S T 0 hS hSnd hT
    (fun _ h => h) (fun _ _ ht => ht)]
  simp only [Option.some.injEq, Prod.mk.injEq, Nat.zero_add]
  refine ⟨?_, ?_, trivial⟩
  · apply List.filter_congr
    intro x hx
    by_cases h2 : x.uid ∈ T <;> simp [matchedEvents, List.mem_filter, hx, h2]
  · apply List.filter_congr
    intro o ho
    have hiff : (o ∈ (matchedEvents T S).map Event.uid) ↔ o ∈ S.map Event.uid := by
      constructor
      · intro h
        obtain ⟨e, he, h2⟩ := List.mem_map.mp h
        exact h2 ▸ List.mem_map_of_mem Event.uid (List.mem_filter.mp he).1
      · intro h
        obtain ⟨e, heS, h2⟩ := List.mem_map.mp h
        refine h2 ▸ List.mem_map_of_mem Event.uid ?_
        simp only [matchedEvents, List.mem_filter]
        exact ⟨heS, by simp [h2 ▸ ho]⟩
    by_cases h2 : o ∈ S.map Event.uid <;> simp [hiff, h2]

theorem uploadEvents_closed (S : List Event) (T : List String)
    (hS : (S.map Event.uid).Nodup) (hT : T.Nodup) :
    uploadEvents S T =
      some (T.filter fun o => decide (o ∉ S.map Event.uid),
            S.filter fun e => decide (e.uid ∉ T),
            (matchedEvents T S).length) := by
  rw [uploadEvents, diffLoop_closed S T hS hT]

theorem count_mem_comm (A B : List String) (hA : A.Nodup) (hB : B.Nodup) :
    (A.filter fun a => decide (a ∈ B)).length =
      (B.filter fun b => decide (b ∈ A)).length := by
  have h1 : (A.filter fun a => decide (a ∈ B)).toFinset = A.toFinset ∩ B.toFinset := by
    ext x
    simp [List.mem_filter]
  have h2 : (B.filter fun b => decide (b ∈ A)).toFinset = A.toFinset ∩ B.toFinset := by
    ext x
    simp [List.mem_filter]
    tauto
  calc (A.filter fun a => decide (a ∈ B)).length
      = (A.filter fun a => decide (a ∈ B)).toFinset.card :=
        (List.toFinset_card_of_nodup (hA.filter _)).symm
    _ = (B.filter fun b => decide (b ∈ A)).toFinset.card := by rw [h1, h2]
    _ = (B.filter fun b => decide (b ∈ A)).length :=
        List.toFinset_card_of_nodup (hB.filter _)

/-- C3 counterexample: with a duplicated identity in the retrieved target list the
matching pass is not a set reconciliation: the pair condition fires again on the
stale product snapshot, `list.remove` raises `ValueError` (modelled `none`), and
`_upload_events` aborts instead of reconciling. -/
theorem c3_counterexample :
    ¬ (["1", "1"] : List String).Nodup ∧
    uploadEvents [exEvent "1"] ["1", "1"] = none := by
  exact ⟨by decide, by decide⟩

/-- C3 (amended): when the source events' uids and the retrieved target ids are
each duplicate-free, the matching pass is a true set reconciliation: it completes,
each source event and each target id is consumed at most once (the survivors are
exactly the unmatched elements), and the n matched pairs account one-to-one for
the consumed elements of both sides. -/
theorem c3_set_reconciliation (S : List Event) (T : List String)
    (hS : (S.map Event.uid).Nodup) (hT : T.Nodup) :
    ∃ n, uploadEvents S T =
        some (T.filter fun o => decide (o ∉ S.map Event.uid),
              S.filter fun e => decide (e.uid ∉ T), n) ∧
      S.length = n + (S.filter fun e => decide (e.uid ∉ T)).length ∧
      T.length = n + (T.filter fun o => decide (o ∉ S.map Event.uid)).length := by
  refine ⟨(matchedEvents T S).length, uploadEvents_closed S T hS hT, ?_, ?_⟩
  · have h1 := List.length_eq_length_filter_add (l := S) fun e => decide (e.uid ∈ T)
    have h2 : (S.filter fun e => !(decide (e.uid ∈ T))) =
        S.filter fun e => decide (e.uid ∉ T) := by
      apply List.filter_congr
      intro e _
      by_cases h : e.uid ∈ T <;> simp [h]
    rw [h2] at h1
    exact h1
  · have h1 := List.length_eq_length_filter_add (l := T) fun o => decide (o ∈ S.map Event.uid)
    have h2 : (T.filter fun o => !(decide (o ∈ S.map Event.uid))) =
        T.filter fun o => decide (o ∉ S.map Event.uid) := by
      apply List.filter_congr
      intro o _
      by_cases h : o ∈ S.map Event.uid <;> simp [h]
    rw [h2] at h1
    have h3 : (T.filter fun o => decide (o ∈ S.map Event.uid)).length =
        (matchedEvents T S).length := by
      rw [count_mem_comm T (S.map Event.uid) hT hS, List.filter_map]
      simp only [List.length_map]
      rfl
    rw [h3] at h1
    exact h1

/-- Witness for C3 (amended) at S = uids 1, 2 and T = 2, 3. -/
theorem c3_set_reconciliation_witness :
    (([exEvent "1", exEvent "2"].map Event.uid).Nodup ∧
      (["2", "3"] : List String).Nodup) ∧
    (∃ n, uploadEvents [exEvent "1", exEvent "2"] ["2", "3"] =
        some ((["2", "3"].filter fun o =>
                decide (o ∉ [exEvent "1", exEvent "2"].map Event.uid)),
              ([exEvent "1", exEvent "2"].filter fun e => decide (e.uid ∉ ["2", "3"])), n) ∧
      ([exEvent "1", exEvent "2"] : List Event).length =
        n + ([exEvent "1", exEvent "2"].filter fun e => decide (e.uid ∉ ["2", "3"])).length ∧
      (["2", "3"] : List String).length =
        n + (["2", "3"].filter fun o =>
              decide (o ∉ [exEvent "1", exEvent "2"].map Event.uid)).length) :=
  ⟨⟨by decide, by decide⟩,
    c3_set_reconciliation [exEvent "1", exEvent "2"] ["2", "3"] (by decide) (by decide)⟩

/-- C4: No content-update propagation: a source event whose uid is already present
on the target is matched by identity alone; the run issues no delete of that uid
and no add of any event with that uid, whatever its title, times or location. -/
theorem c4_no_content_update (S : List Event) (T : List String) (e : Event)
    (hS : (S.map Event.uid).Nodup) (hT : T.Nodup)
    (he : e ∈ S) (hm : e.uid ∈ T) :
    ∃ dels adds n, uploadEvents S T = some (dels, adds, n) ∧
      e.uid ∉ dels ∧ ∀ a ∈ adds, a.uid ≠ e.uid := by
  refine ⟨_, _, _, uploadEvents_closed S T hS hT, ?_, ?_⟩
  · intro hc
    exact (of_decide_eq_true (List.mem_filter.mp hc).2) (List.mem_map_of_mem Event.uid he)
  · intro a ha hc
    exact (of_decide_eq_true (List.mem_filter.mp ha).2) (hc ▸ hm)

/-- Witness for C4: an event with uid 1 but different title/times/location than
anything ever uploaded is matched purely by its uid. -/
theorem c4_no_content_update_witness :
    (([changedEvent].map Event.uid).Nodup ∧
      (["1"] : List String).Nodup ∧
      changedEvent ∈ [changedEvent] ∧
      changedEvent.uid ∈ (["1"] : List String)) ∧
    (∃ dels adds n,
      uploadEvents [changedEvent] ["1"] = some (dels, adds, n) ∧
      changedEvent.uid ∉ dels ∧
      ∀ a ∈ adds, a.uid ≠ changedEvent.uid) :=
  ⟨⟨by decide, by decide, by decide, by decide⟩,
    c4_no_content_update [changedEvent] ["1"] changedEvent
      (by decide) (by decide) (by decide) (by decide)⟩

/-- C7: Apply ordering: in the adapter-call trace of a successful `_upload_events`
run, the trace splits into a first part with no add_event call and a second part
with no delete_event call: every delete precedes every add. -/
theorem c7_deletes_before_adds (startT endT : Int) (S : List Event)
    (T : List String) (tr : List AdapterCall)
    (h : uploadEventsTrace startT endT S T = some tr) :
    ∃ tr1 tr2, tr = tr1 ++ tr2 ∧ (∀ c ∈ tr1, isAddCall c = false) ∧
      (∀ c ∈ tr2, isDeleteCall c = false) := by
  rcases hu : uploadEvents S T with _ | ⟨dels, adds, n⟩
  · rw [uploadEventsTrace, hu] at h
    cases h
  · rw [uploadEventsTrace, hu] at h
    have htr : tr = (AdapterCall.retrieveIds startT endT :: dels.map AdapterCall.deleteEvent) ++
        adds.map (fun ev => AdapterCall.addEvent ev.uid ev.title ev.startTime ev.endTime ev.location) := by
      injection h with h2
      rw [← h2]
      simp
    refine ⟨_, _, htr, ?_, ?_⟩
    · intro c hc
      rcases List.mem_cons.mp hc with rfl | hc2
      · rfl
      · obtain ⟨u, _, rfl⟩ := List.mem_map.mp hc2
        rfl
    · intro c hc
      obtain ⟨ev, _, rfl⟩ := List.mem_map.mp hc
      rfl

/-- Witness for C7: one stale id 2 to delete, one new event 1 to add. -/
theorem c7_deletes_before_adds_witness :
    uploadEventsTrace 0 5 [exEvent "1"] ["2"] =
      some [AdapterCall.retrieveIds 0 5, AdapterCall.deleteEvent "2",
            AdapterCall.addEvent "1" "t" 0 1 ""] ∧
    ∃ tr1 tr2, [AdapterCall.retrieveIds 0 5, AdapterCall.deleteEvent "2",
            AdapterCall.addEvent "1" "t" 0 1 ""] = tr1 ++ tr2 ∧
      (∀ c ∈ tr1, isAddCall c = false) ∧ (∀ c ∈ tr2, isDeleteCall c = false) :=
  ⟨by decide,
    c7_deletes_before_adds 0 5 [exEvent "1"] ["2"] _ (by decide)⟩

/-- C10: The matching pass mutates the source adapter's cached event list in
place: after a successful run every matched source event is gone from the cache
the `events` property returned, and every unmatched one is still there. -/
theorem c10_cache_mutated (S : List Event) (T : List String)
    (hS : (S.map Event.uid).Nodup) (hT : T.Nodup) :
    ∃ cache, cacheAfterUpload S T = some cache ∧
      (∀ e ∈ S, e.uid ∈ T → e ∉ cache) ∧
      (∀ e ∈ S, e.uid ∉ T → e ∈ cache) := by
  refine ⟨S.filter fun e => decide (e.uid ∉ T), ?_, ?_, ?_⟩
  · simp [cacheAfterUpload, diffLoop_closed S T hS hT]
  · intro e _ hm hc
    exact (of_decide_eq_true (List.mem_filter.mp hc).2) hm
  · intro e he hm
    exact List.mem_filter.mpr ⟨he, decide_eq_true hm⟩

/-- Witness for C10: uid 1 is matched and vanishes from the cache, uid 2 stays. -/
theorem c10_cache_mutated_witness :
    (([exEvent "1", exEvent "2"].map Event.uid).Nodup ∧
      (["1"] : List String).Nodup) ∧
    (∃ cache, cacheAfterUpload [exEvent "1", exEvent "2"] ["1"] = some cache ∧
      (∀ e ∈ [exEvent "1", exEvent "2"], e.uid ∈ (["1"] : List String) → e ∉ cache) ∧
      (∀ e ∈ [exEvent "1", exEvent "2"], e.uid ∉ (["1"] : List String) → e ∈ cache)) :=
  ⟨⟨by decide, by decide⟩,
    c10_cache_mutated [exEvent "1", exEvent "2"] ["1"] (by decide) (by decide)⟩

theorem startFold_some (l : List Event) (a : Int) :
    l.foldl
      (fun first e =>
        match first with
        | none => some e.startTime
        | some f => if e.startTime < f then some e.startTime else some f)
      (some a) =
    some (l.foldl (fun acc e => min acc e.startTime) a) := by
  induction l generalizing a with
  | nil => rfl
  | cons e l ih =>
    simp only [List.foldl_cons]
    have h : (if e.startTime < a then some e.startTime else some a) =
        some (min a e.startTime) := by
      rcases lt_or_le e.startTime a with h | h
      · rw [if_pos h, min_eq_right h.le]
      · rw [if_neg (not_lt.mpr h), min_eq_left h]
    show List.foldl _ (if e.startTime < a then some e.startTime else some a) l = _
    rw [h, ih]

theorem endFold_some (l : List Event) (a : Int) :
    l.foldl
      (fun last e =>
        match last with
        | none => some e.endTime
        | some f => if f < e.endTime then some e.endTime else some f)
      (some a) =
    some (l.foldl (fun acc e => max acc e.endTime) a) := by
  induction l generalizing a with
  | nil => rfl
  | cons e l ih =>
    simp only [List.foldl_cons]
    have h : (if a < e.endTime then some e.endTime else some a) =
        some (max a e.endTime) := by
      rcases lt_or_le a e.endTime with h | h
      · rw [if_pos h, max_eq_right h.le]
      · rw [if_neg (not_lt.mpr h), max_eq_left h]
    show List.foldl _ (if a < e.endTime then some e.endTime else some a) l = _
    rw [h, ih]

theorem foldl_min_le_init (l : List Event) (a : Int) :
    l.foldl (fun acc e => min acc e.startTime) a ≤ a := by
  induction l generalizing a with
  | nil => exact le_refl a
  | cons e l ih => exact (ih (min a e.startTime)).trans (min_le_left a e.startTime)

theorem foldl_min_le_mem (l : List Event) (a : Int) (e : Event) :
    e ∈ l → l.foldl (fun acc e => min acc e.startTime) a ≤ e.startTime := by
  induction l generalizing a with
  | nil => intro he; cases he
  | cons e2 l ih =>
    intro he
    rcases List.mem_cons.mp he with rfl | he2
    · exact (foldl_min_le_init l (min a e.startTime)).trans (min_le_right a e.startTime)
    · exact ih (min a e2.startTime) he2

theorem foldl_min_mem (l : List Event) (a : Int) :
    l.foldl (fun acc e => min acc e.startTime) a = a ∨
      l.foldl (fun acc e => min acc e.startTime) a ∈ l.map Event.startTime := by
  induction l generalizing a with
  | nil => exact Or.inl rfl
  | cons e l ih =>
    rcases ih (min a e.startTime) with h | h
    · rcases min_choice a e.startTime with h2 | h2
      · exact Or.inl (by rw [List.foldl_cons, h, h2])
      · refine Or.inr ?_
        rw [List.foldl_cons, h, h2]
        exact List.mem_cons_self _ _
    · exact Or.inr (List.mem_cons_of_mem _ h)

theorem foldl_max_le_init (l : List Event) (a : Int) :
    a ≤ l.foldl (fun acc e => max acc e.endTime) a := by
  induction l generalizing a with
  | nil => exact le_refl a
  | cons e l ih => exact (le_max_left a e.endTime).trans (ih (max a e.endTime))

theorem foldl_max_le_mem (l : List Event) (a : Int) (e : Event) :
    e ∈ l → e.endTime ≤ l.foldl (fun acc e => max acc e.endTime) a := by
  induction l generalizing a with
  | nil => intro he; cases he
  | cons e2 l ih =>
    intro he
    rcases List.mem_cons.mp he with rfl | he2
    · exact (le_max_right a e.endTime).trans (foldl_max_le_init l (max a e.endTime))
    · exact ih (max a e2.endTime) he2

theorem foldl_max_mem (l : List Event) (a : Int) :
    l.foldl (fun acc e => max acc e.endTime) a = a ∨
      l.foldl (fun acc e => max acc e.endTime) a ∈ l.map Event.endTime := by
  induction l generalizing a with
  | nil => exact Or.inl rfl
  | cons e l ih =>
    rcases ih (max a e.endTime) with h | h
    · rcases max_choice a e.endTime with h2 | h2
      · exact Or.inl (by rw [List.foldl_cons, h, h2])
      · refine Or.inr ?_
        rw [List.foldl_cons, h, h2]
        exact List.mem_cons_self _ _
    · exact Or.inr (List.mem_cons_of_mem _ h)

/-- C9 counterexample: `CampusCalenderAdapter` overrides `start_time`/`end_time`
to return the configured query period (100, 200), although the minimum start over
its events is 5 and the maximum end is 6 (the base computation would yield those),
so the span contract does not hold for every source calendar adapter. -/
theorem c9_counterexample :
    campusStartTime c9ex = 100 ∧ campusEndTime c9ex = 200 ∧
    sourceStartTime c9ex.events = some 5 ∧ sourceEndTime c9ex.events = some 6 ∧
    (100 : Int) ≠ 5 ∧ (200 : Int) ≠ 6 :=
  ⟨rfl, rfl, by decide, by decide, by decide, by decide⟩

/-- C9 (amended): the base `CalendarSourceAdapter.start_time`/`end_time`
computations return the minimum start time and maximum end time over the fetched
events when the list is non-empty, and None when it is empty; the
`CampusCalenderAdapter` override instead returns the configured period regardless
of the events. -/
theorem c9_span_contract (events : List Event) :
    (events = [] → sourceStartTime events = none ∧ sourceEndTime events = none) ∧
    (events ≠ [] → ∃ m M : Int,
      sourceStartTime events = some m ∧ sourceEndTime events = some M ∧
      (∀ e ∈ events, m ≤ e.startTime ∧ e.endTime ≤ M) ∧
      m ∈ events.map Event.startTime ∧ M ∈ events.map Event.endTime) ∧
    (∀ cs ce : Int, campusStartTime ⟨cs, ce, events⟩ = cs ∧
      campusEndTime ⟨cs, ce, events⟩ = ce) := by
  refine ⟨?_, ?_, fun cs ce => ⟨rfl, rfl⟩⟩
  · rintro rfl
    exact ⟨rfl, rfl⟩
  · intro h
    obtain ⟨e0, rest, rfl⟩ := List.exists_cons_of_ne_nil h
    refine ⟨rest.foldl (fun acc e => min acc e.startTime) e0.startTime,
            rest.foldl (fun acc e => max acc e.endTime) e0.endTime, ?_, ?_, ?_, ?_, ?_⟩
    · show List.foldl _ (some e0.startTime) rest = _
      exact startFold_some rest e0.startTime
    · show List.foldl _ (some e0.endTime) rest = _
      exact endFold_some rest e0.endTime
    · intro e he
      rcases List.mem_cons.mp he with rfl | he2
      · exact ⟨foldl_min_le_init rest e.startTime, foldl_max_le_init rest e.endTime⟩
      · exact ⟨foldl_min_le_mem rest e0.startTime e he2,
               foldl_max_le_mem rest e0.endTime e he2⟩
    · rcases foldl_min_mem rest e0.startTime with h2 | h2
      · rw [h2]
        exact List.mem_cons_self _ _
      · exact List.mem_cons_of_mem _ h2
    · rcases foldl_max_mem rest e0.endTime with h2 | h2
      · rw [h2]
        exact List.mem_cons_self _ _
      · exact List.mem_cons_of_mem _ h2

/-- Witness for C9 (amended) on a one-event list: the span is the event's own
start and end. -/
theorem c9_span_contract_witness :
    ([exEvent "1"] : List Event) ≠ [] ∧
    (∃ m M : Int,
      sourceStartTime [exEvent "1"] = some m ∧ sourceEndTime [exEvent "1"] = some M ∧
      (∀ e ∈ [exEvent "1"], m ≤ e.startTime ∧ e.endTime ≤ M) ∧
      m ∈ ([exEvent "1"].map Event.startTime) ∧ M ∈ ([exEvent "1"].map Event.endTime)) :=
  ⟨by decide, (c9_span_contract [exEvent "1"]).2.1 (by decide)⟩

theorem pySplit_sep_free (s : List Char) (h : ¬ sepChars <:+: s) :
    pySplit s = [s] := by
  induction s with
  | nil => rw [pySplit]
  | cons c rest ih =>
    rw [pySplit]
    rw [if_neg ?hn]
    case hn =>
      intro hp
      exact h ( List.IsPrefix.isInfix ( List.isPrefixOf_iff_prefix.mp hp))
    rw [ih ?hr]
    case hr =>
      intro hi
      obtain ⟨p, q, hpq⟩ := hi
      exact h ⟨c :: p, q, by simp [← hpq]⟩

theorem pySplit_append (s1 s2 : List Char)
    (h : ¬ sepChars <:+: (s1 ++ ['-', '|'])) :
    pySplit (s1 ++ sepChars ++ s2) = s1 :: pySplit s2 := by
  induction s1 with
  | nil =>
    show pySplit (sepChars ++ s2) = [] :: pySplit s2
    simp only [sepChars, List.cons_append, List.nil_append]
    rw [pySplit]
    rw [if_pos ?hp]
    case hp =>
      simp [List.isPrefixOf]
    simp
  | cons c s1 ih =>
    simp only [List.cons_append]
    rw [pySplit]
    rw [if_neg ?hn]
    case hn =>
      intro hp
      have hp2 : sepChars <+: c :: (s1 ++ sepChars ++ s2) :=
        List.isPrefixOf_iff_prefix.mp hp
      have hpre2 : (c :: s1) ++ ['-', '|'] <+: c :: (s1 ++ sepChars ++ s2) := by
        refine ⟨'-' :: s2, ?_⟩
        simp [sepChars]
      have hlen : sepChars.length ≤ ((c :: s1) ++ ['-', '|']).length := by
        simp [sepChars]
      exact h ( List.IsPrefix.isInfix
        ( List.prefix_of_prefix_length_le hp2 hpre2 hlen))
    have ih2 := ih ?hr
    case hr =>
      intro hi
      obtain ⟨p, q, hpq⟩ := hi
      exact h ⟨c :: p, q, by simp [← hpq]⟩
    rw [show s1 ++ sepChars ++ s2 = s1 ++ (sepChars ++ s2) from by simp] at ih2 ⊢
    rw [ih2]

/-- C6 counterexample: the code splits the wire id on every occurrence of the
separator, not only the first: a uid containing the separator does not round-trip.
encode("cal1", "ev-|-42") decodes to the 3-tuple ("cal1", "ev", "42"), not to the
pair ("cal1", "ev-|-42") (and not to the first-occurrence split ("cal1", "ev-|-42")
either). -/
theorem c6_counterexample :
    decodeIdentity (encodeIdentity "cal1".toList "ev-|-42".toList) =
      [some "cal1".toList, some "ev".toList, some "42".toList] ∧
    decodeIdentity (encodeIdentity "cal1".toList "ev-|-42".toList) ≠
      [some "cal1".toList, some "ev-|-42".toList] := by
  have h42 : "ev-|-42".toList = "ev".toList ++ sepChars ++ "42".toList := by decide
  have hsplit : pySplit (encodeIdentity "cal1".toList "ev-|-42".toList) =
      ["cal1".toList, "ev".toList, "42".toList] := by
    rw [encodeIdentity, h42]
    rw [pySplit_append _ _ (by decide)]
    rw [pySplit_append _ _ (by decide)]
    rw [pySplit_sep_free _ (by decide)]
  constructor
  · rw [decodeIdentity, hsplit]
    rw [if_neg (by decide)]
    rfl
  · rw [decodeIdentity, hsplit]
    rw [if_neg (by decide)]
    decide

/-- C6 (amended): encoding a (calendarUid, uid) pair and decoding reproduces it
exactly provided the separator occurs neither in uid nor anywhere in
calendarUid ++ "-|" (so no separator occurrence starts inside calendarUid, also
not one formed with the appended separator); decoding splits on every occurrence
of the separator; and decoding a string containing no separator yields
(absent, thatString). -/
theorem c6_identity_roundtrip (calUid uid s : List Char)
    (h1 : ¬ sepChars <:+: (calUid ++ ['-', '|'])) (h2 : ¬ sepChars <:+: uid)
    (h3 : ¬ sepChars <:+: s) :
    decodeIdentity (encodeIdentity calUid uid) = [some calUid, some uid] ∧
    decodeIdentity s = [none, some s] := by
  constructor
  · rw [encodeIdentity, decodeIdentity, pySplit_append calUid uid h1,
      pySplit_sep_free uid h2]
    rw [if_neg (by simp)]
    rfl
  · rw [decodeIdentity, pySplit_sep_free s h3]
    rw [if_pos (by simp)]
    rfl

/-- Witness for C6 (amended) at calendarUid "cal1", uid "ev42", bare string
"bare". -/
theorem c6_identity_roundtrip_witness :
    (¬ sepChars <:+: ("cal1".toList ++ ['-', '|']) ∧
      ¬ sepChars <:+: "ev42".toList ∧ ¬ sepChars <:+: "bare".toList) ∧
    (decodeIdentity (encodeIdentity "cal1".toList "ev42".toList) =
        [some "cal1".toList, some "ev42".toList] ∧
      decodeIdentity "bare".toList = [none, some "bare".toList]) :=
  ⟨⟨by decide, by decide, by decide⟩,
    c6_identity_roundtrip "cal1".toList "ev42".toList "bare".toList
      (by decide) (by decide) (by decide)⟩

theorem applyAll_ok {α : Type} (f : α → Except ExcClass Unit) (mk : α → SyncCall)
    (l : List α) (h : ∀ x ∈ l, f x = Except.ok ()) :
    applyAll f mk l = (Except.ok (), l.map mk) := by
  induction l with
  | nil => rfl
  | cons x xs ih =>
    simp only [applyAll]
    rw [h x (List.mem_cons_self x xs)]
    rw [ih fun y hy => h y (List.mem_cons_of_mem x hy)]
    rfl

theorem applyAll_error {α : Type} (f : α → Except ExcClass Unit) (mk : α → SyncCall)
    (l1 : List α) (x : α) (l2 : List α) (ε : ExcClass)
    (h1 : ∀ y ∈ l1, f y = Except.ok ()) (hx : f x = Except.error ε) :
    applyAll f mk (l1 ++ x :: l2) = (Except.error ε, l1.map mk ++ [mk x]) := by
  induction l1 with
  | nil =>
    simp only [List.nil_append, applyAll]
    rw [hx]
    rfl
  | cons y ys ih =>
    simp only [List.cons_append, applyAll, List.append_eq]
    rw [h1 y (by simp)]
    rw [ih fun z hz => h1 z (by simp [hz])]
    rfl

/-- C5: Window-skip rule (spec-modelled synchronizer): when the source yields zero
events, the run performs no listEventIdentities, no delete and no add call on the
upload calendar; with a successful connect the whole trace is the fetch and the
connect, and the run succeeds without touching any pre-existing target event. -/
theorem c5_window_skip (connectRes : Except ExcClass Unit)
    (listRes : Except ExcClass (List (Option String × String)))
    (deleteRes : Option String × String → Except ExcClass Unit)
    (addRes : Event → Except ExcClass Unit) :
    (∀ c ∈ (synchronize (Except.ok []) connectRes listRes deleteRes addRes).2,
      isListCallS c = false ∧ isDeleteCallS c = false ∧ isAddCallS c = false) ∧
    (connectRes = Except.ok () →
      synchronize (Except.ok []) connectRes listRes deleteRes addRes =
        (Except.ok (), [SyncCall.fetchSource, SyncCall.connectTarget])) := by
  constructor
  · intro c hc
    rcases connectRes with ε | u
    · simp [synchronize] at hc
      rcases hc with rfl | rfl
      · exact ⟨rfl, rfl, rfl⟩
      · exact ⟨rfl, rfl, rfl⟩
    · simp [synchronize] at hc
      rcases hc with rfl | rfl
      · exact ⟨rfl, rfl, rfl⟩
      · exact ⟨rfl, rfl, rfl⟩
  · rintro rfl
    rfl

/-- Witness for C5 with every backend operation succeeding. -/
theorem c5_window_skip_witness :
    (∀ c ∈ (synchronize (Except.ok []) (Except.ok ()) (Except.ok [])
        (fun _ => Except.ok ()) (fun _ => Except.ok ())).2,
      isListCallS c = false ∧ isDeleteCallS c = false ∧ isAddCallS c = false) ∧
    synchronize (Except.ok []) (Except.ok ()) (Except.ok [])
        (fun _ => Except.ok ()) (fun _ => Except.ok ()) =
      (Except.ok (), [SyncCall.fetchSource, SyncCall.connectTarget]) :=
  ⟨(c5_window_skip (Except.ok ()) (Except.ok [])
      (fun _ => Except.ok ()) (fun _ => Except.ok ())).1,
    (c5_window_skip (Except.ok ()) (Except.ok [])
      (fun _ => Except.ok ()) (fun _ => Except.ok ())).2 rfl⟩

/-- C8: Failure policy (spec-modelled synchronizer, exception classes from
src/calendarsync/exceptions.py): every error class derives from
CalendarSynchronizerError; the first failure at any step - source fetch, target
connect, listing, any single delete, any single add - ends the run immediately
with exactly that typed error and no further backend call: no retry, no rollback,
and a delete failure prevents every add. -/
theorem c8_failure_policy (fR : Except ExcClass (List Event))
    (cR : Except ExcClass Unit)
    (lR : Except ExcClass (List (Option String × String)))
    (dR : Option String × String → Except ExcClass Unit)
    (aR : Event → Except ExcClass Unit) :
    (∀ ε : ExcClass, DerivesFrom ε ExcClass.calendarSynchronizerError) ∧
    (∀ ε, fR = Except.error ε →
      synchronize fR cR lR dR aR = (Except.error ε, [SyncCall.fetchSource])) ∧
    (∀ evs ε, fR = Except.ok evs → cR = Except.error ε →
      synchronize fR cR lR dR aR =
        (Except.error ε, [SyncCall.fetchSource, SyncCall.connectTarget])) ∧
    (∀ evs ε, fR = Except.ok evs → evs ≠ [] → cR = Except.ok () →
      lR = Except.error ε →
      synchronize fR cR lR dR aR =
        (Except.error ε, [SyncCall.fetchSource, SyncCall.connectTarget,
          SyncCall.listIdentities ((sourceStartTime evs).getD 0)
            ((sourceEndTime evs).getD 0)])) ∧
    (∀ evs T d1 x d2 ε, fR = Except.ok evs → evs ≠ [] → cR = Except.ok () →
      lR = Except.ok T → staleIdentities evs T = d1 ++ x :: d2 →
      (∀ d ∈ d1, dR d = Except.ok ()) → dR x = Except.error ε →
      synchronize fR cR lR dR aR =
        (Except.error ε, [SyncCall.fetchSource, SyncCall.connectTarget,
          SyncCall.listIdentities ((sourceStartTime evs).getD 0)
            ((sourceEndTime evs).getD 0)] ++
          (d1.map SyncCall.deleteIdentity ++ [SyncCall.deleteIdentity x]))) ∧
    (∀ evs T a1 x a2 ε, fR = Except.ok evs → evs ≠ [] → cR = Except.ok () →
      lR = Except.ok T → (∀ d ∈ staleIdentities evs T, dR d = Except.ok ()) →
      newEvents evs T = a1 ++ x :: a2 → (∀ a ∈ a1, aR a = Except.ok ()) →
      aR x = Except.error ε →
      synchronize fR cR lR dR aR =
        (Except.error ε, [SyncCall.fetchSource, SyncCall.connectTarget,
          SyncCall.listIdentities ((sourceStartTime evs).getD 0)
            ((sourceEndTime evs).getD 0)] ++
          ((staleIdentities evs T).map SyncCall.deleteIdentity ++
            (a1.map SyncCall.addEvent ++ [SyncCall.addEvent x])))) := by
  refine ⟨?_, ?_, ?_, ?_, ?_, ?_⟩
  · intro ε
    cases ε
    · exact DerivesFrom.refl _
    · exact DerivesFrom.step rfl (DerivesFrom.refl _)
    · exact DerivesFrom.step rfl (DerivesFrom.step rfl (DerivesFrom.refl _))
    · exact DerivesFrom.step rfl (DerivesFrom.refl _)
    · exact DerivesFrom.step rfl (DerivesFrom.step rfl (DerivesFrom.refl _))
    · exact DerivesFrom.step rfl (DerivesFrom.step rfl (DerivesFrom.refl _))
    · exact DerivesFrom.step rfl (DerivesFrom.step rfl (DerivesFrom.refl _))
    · exact DerivesFrom.step rfl (DerivesFrom.step rfl (DerivesFrom.refl _))
  · rintro ε rfl
    rfl
  · rintro evs ε rfl rfl
    rfl
  · rintro evs ε rfl hne rfl rfl
    simp [synchronize, hne]
  · rintro evs T d1 x d2 ε rfl hne rfl rfl hstale hd hx
    simp only [synchronize]
    rw [if_neg hne]
    rw [hstale, applyAll_error dR SyncCall.deleteIdentity d1 x d2 ε hd hx]
  · rintro evs T a1 x a2 ε rfl hne rfl rfl hdok hnew ha hx
    simp only [synchronize]
    rw [if_neg hne]
    rw [applyAll_ok dR SyncCall.deleteIdentity (staleIdentities evs T) hdok]
    rw [hnew, applyAll_error aR SyncCall.addEvent a1 x a2 ε ha hx]
    simp

/-- Witness for C8: a delete failure on stale identity (None, "z") aborts the run
with EventDeletionError after the fetch, connect, list and the failing delete,
issuing no add. -/
theorem c8_failure_policy_witness :
    synchronize (Except.ok [exEvent "a"]) (Except.ok ())
        (Except.ok [((none : Option String), "z")])
        (fun _ => Except.error ExcClass.eventDeletionError)
        (fun _ => Except.ok ()) =
      (Except.error ExcClass.eventDeletionError,
        [SyncCall.fetchSource, SyncCall.connectTarget, SyncCall.listIdentities 0 1,
          SyncCall.deleteIdentity ((none : Option String), "z")]) := by
  have h := (c8_failure_policy (Except.ok [exEvent "a"]) (Except.ok ())
    (Except.ok [((none : Option String), "z")])
    (fun _ => Except.error ExcClass.eventDeletionError)
    (fun _ => Except.ok ())).2.2.2.2.1
  exact h [exEvent "a"] [((none : Option String), "z")] []
    ((none : Option String), "z") [] ExcClass.eventDeletionError rfl
    (by decide) rfl rfl (by decide)
    (fun d hd => absurd hd (List.not_mem_nil d)) rfl

theorem applyCalls_outWindow (l : List SyncCall) (t : UploadTargetState) :
    (applyCalls t l).outWindow = t.outWindow := by
  induction l generalizing t with
  | nil => rfl
  | cons c rest ih => cases c <;> exact ih _

theorem applyCalls_append (l1 l2 : List SyncCall) (t : UploadTargetState) :
    applyCalls t (l1 ++ l2) = applyCalls (applyCalls t l1) l2 := by
  induction l1 generalizing t with
  | nil => rfl
  | cons c rest ih => cases c <;> exact ih _

theorem applyCalls_deletes (ds : List (Option String × String)) (t : UploadTargetState) :
    applyCalls t (ds.map SyncCall.deleteIdentity) =
      { inWindow := t.inWindow.filter fun x => decide (x ∉ ds),
        outWindow := t.outWindow } := by
  induction ds generalizing t with
  | nil =>
    cases t
    simp [applyCalls]
  | cons d ds ih =>
    simp only [List.map_cons, applyCalls]
    rw [ih]
    simp only [UploadTargetState.mk.injEq, List.filter_filter]
    refine ⟨?_, trivial⟩
    apply List.filter_congr
    intro x _
    by_cases h1 : x = d <;> by_cases h2 : x ∈ ds <;> simp [h1, h2]

theorem applyCalls_adds (as : List Event) (t : UploadTargetState) :
    applyCalls t (as.map SyncCall.addEvent) =
      { inWindow := t.inWindow ++ as.map identityOf,
        outWindow := t.outWindow } := by
  induction as generalizing t with
  | nil =>
    cases t
    simp [applyCalls]
  | cons a as ih =>
    simp only [List.map_cons, applyCalls]
    rw [ih]
    simp

theorem synchronize_ok_trace (S : List Event) (T : List (Option String × String))
    (dR : Option String × String → Except ExcClass Unit)
    (aR : Event → Except ExcClass Unit) (hne : S ≠ [])
    (hd : ∀ d ∈ staleIdentities S T, dR d = Except.ok ())
    (ha : ∀ a ∈ newEvents S T, aR a = Except.ok ()) :
    synchronize (Except.ok S) (Except.ok ()) (Except.ok T) dR aR =
      (Except.ok (), [SyncCall.fetchSource, SyncCall.connectTarget,
        SyncCall.listIdentities ((sourceStartTime S).getD 0)
          ((sourceEndTime S).getD 0)] ++
        (staleIdentities S T).map SyncCall.deleteIdentity ++
        (newEvents S T).map SyncCall.addEvent) := by
  simp only [synchronize]
  rw [if_neg hne]
  rw [applyAll_ok dR SyncCall.deleteIdentity (staleIdentities S T) hd]
  rw [applyAll_ok aR SyncCall.addEvent (newEvents S T) ha]

theorem runTarget_mem (S : List Event) (t : UploadTargetState) (hne : S ≠ []) :
    (∀ i, i ∈ (runTarget S t).inWindow ↔ i ∈ S.map identityOf) ∧
    (runTarget S t).outWindow = t.outWindow := by
  have htr := synchronize_ok_trace S t.inWindow (fun _ => Except.ok ())
    (fun _ => Except.ok ()) hne (fun _ _ => rfl) (fun _ _ => rfl)
  have hfinal : runTarget S t =
      { inWindow := (t.inWindow.filter fun x =>
            decide (x ∉ staleIdentities S t.inWindow)) ++
          (newEvents S t.inWindow).map identityOf,
        outWindow := t.outWindow } := by
    rw [runTarget, htr]
    rw [applyCalls_append, applyCalls_append]
    rw [show applyCalls t [SyncCall.fetchSource, SyncCall.connectTarget,
      SyncCall.listIdentities ((sourceStartTime S).getD 0)
        ((sourceEndTime S).getD 0)] = t from rfl]
    rw [applyCalls_deletes, applyCalls_adds]
  refine ⟨?_, by rw [hfinal]⟩
  intro i
  rw [hfinal]
  show i ∈ _ ++ _ ↔ _
  constructor
  · intro h
    rcases List.mem_append.mp h with h1 | h2
    · obtain ⟨hw, hnd⟩ := List.mem_filter.mp h1
      have hnd2 : i ∉ staleIdentities S t.inWindow := of_decide_eq_true hnd
      by_cases hu : i ∈ S.map identityOf
      · exact hu
      · exact absurd (show i ∈ staleIdentities S t.inWindow from
          List.mem_filter.mpr ⟨hw, decide_eq_true hu⟩) hnd2
    · obtain ⟨e, he, h2⟩ := List.mem_map.mp h2
      exact h2 ▸ List.mem_map_of_mem identityOf (List.mem_filter.mp he).1
  · intro h
    by_cases hw : i ∈ t.inWindow
    · refine List.mem_append.mpr (Or.inl (List.mem_filter.mpr ⟨hw, ?_⟩))
      refine decide_eq_true ?_
      intro hc
      exact absurd h (of_decide_eq_true (List.mem_filter.mp hc).2)
    · obtain ⟨e, he, h2⟩ := List.mem_map.mp h
      refine List.mem_append.mpr (Or.inr ?_)
      refine h2 ▸ List.mem_map_of_mem identityOf ?_
      refine List.mem_filter.mpr ⟨he, decide_eq_true ?_⟩
      rw [h2]
      exact hw

/-- C1: Convergence of one run (spec-modelled synchronizer, composite
identities): for any nonempty source event list S - with zero events the spec's
window-skip queries no window at all, see C5 - and any initial target identity
state, one fully successful run succeeds and leaves the target's in-window
identity set exactly `(identityOf e for e in S)`; identities outside the window
are untouched. -/
theorem c1_convergence (S : List Event) (t : UploadTargetState) (hne : S ≠ []) :
    (synchronize (Except.ok S) (Except.ok ()) (Except.ok t.inWindow)
        (fun _ => Except.ok ()) (fun _ => Except.ok ())).1 = Except.ok () ∧
    (∀ i, i ∈ (runTarget S t).inWindow ↔ i ∈ S.map identityOf) ∧
    (runTarget S t).outWindow = t.outWindow := by
  refine ⟨?_, (runTarget_mem S t hne).1, (runTarget_mem S t hne).2⟩
  rw [synchronize_ok_trace S t.inWindow _ _ hne (fun _ _ => rfl) (fun _ _ => rfl)]

/-- Witness for C1: source events with uids 1 and 2, target holding identities
1 and 3 in the window and z outside it. -/
theorem c1_convergence_witness :
    ([exEvent "1", exEvent "2"] : List Event) ≠ [] ∧
    ((synchronize (Except.ok [exEvent "1", exEvent "2"]) (Except.ok ())
        (Except.ok (UploadTargetState.mk
          [((none : Option String), "1"), (none, "3")] [(none, "z")]).inWindow)
        (fun _ => Except.ok ()) (fun _ => Except.ok ())).1 = Except.ok () ∧
      (∀ i, i ∈ (runTarget [exEvent "1", exEvent "2"]
          (UploadTargetState.mk [((none : Option String), "1"), (none, "3")]
            [(none, "z")])).inWindow ↔
        i ∈ [exEvent "1", exEvent "2"].map identityOf) ∧
      (runTarget [exEvent "1", exEvent "2"]
        (UploadTargetState.mk [((none : Option String), "1"), (none, "3")]
          [(none, "z")])).outWindow =
        (UploadTargetState.mk [((none : Option String), "1"), (none, "3")]
          [(none, "z")]).outWindow) :=
  ⟨by decide,
    c1_convergence [exEvent "1", exEvent "2"]
      (UploadTargetState.mk [((none : Option String), "1"), (none, "3")]
        [(none, "z")]) (by decide)⟩

/-- C2: Idempotence (spec-modelled synchronizer): a second run with the source
unchanged, listing the target state the first run left behind, succeeds and
issues zero deleteEvent and zero addEvent calls, whatever the delete and add
backends would answer. -/
theorem c2_idempotence (S : List Event) (t : UploadTargetState)
    (T2 : List (Option String × String))
    (dR : Option String × String → Except ExcClass Unit)
    (aR : Event → Except ExcClass Unit)
    (hT2 : ∀ i, i ∈ T2 ↔ i ∈ (runTarget S t).inWindow) :
    (synchronize (Except.ok S) (Except.ok ()) (Except.ok T2) dR aR).1 =
      Except.ok () ∧
    ∀ c ∈ (synchronize (Except.ok S) (Except.ok ()) (Except.ok T2) dR aR).2,
      isDeleteCallS c = false ∧ isAddCallS c = false := by
  by_cases hne : S = []
  · subst hne
    refine ⟨rfl, ?_⟩
    intro c hc
    simp [synchronize] at hc
    rcases hc with rfl | rfl
    · exact ⟨rfl, rfl⟩
    · exact ⟨rfl, rfl⟩
  · have hmem : ∀ i, i ∈ T2 ↔ i ∈ S.map identityOf :=
      fun i => (hT2 i).trans ((runTarget_mem S t hne).1 i)
    have hstale : staleIdentities S T2 = [] := by
      rw [staleIdentities, List.filter_eq_nil_iff]
      intro i hi
      simp [(hmem i).mp hi]
    have hnew : newEvents S T2 = [] := by
      rw [newEvents, List.filter_eq_nil_iff]
      intro e he
      simp [(hmem (identityOf e)).mpr (List.mem_map_of_mem identityOf he)]
    have htr := synchronize_ok_trace S T2 dR aR hne
      (by intro d hd; rw [hstale] at hd; exact absurd hd (List.not_mem_nil d))
      (by intro a ha; rw [hnew] at ha; exact absurd ha (List.not_mem_nil a))
    rw [htr, hstale, hnew]
    refine ⟨rfl, ?_⟩
    intro c hc
    simp only [List.map_nil, List.append_nil, List.mem_cons,
      List.not_mem_nil, or_false] at hc
    rcases hc with rfl | rfl | rfl
    · exact ⟨rfl, rfl⟩
    · exact ⟨rfl, rfl⟩
    · exact ⟨rfl, rfl⟩

/-- Witness for C2: source with one event of uid 1 against an initial target id
(absent, 3); the first run deletes it and adds (absent, 1), the second run lists
(absent, 1) and issues no delete and no add. -/
theorem c2_idempotence_witness :
    (∀ i, i ∈ ([((none : Option String), "1")] : List (Option String × String)) ↔
      i ∈ (runTarget [exEvent "1"]
        (UploadTargetState.mk [((none : Option String), "3")] [])).inWindow) ∧
    ((synchronize (Except.ok [exEvent "1"]) (Except.ok ())
        (Except.ok [((none : Option String), "1")])
        (fun _ => Except.ok ()) (fun _ => Except.ok ())).1 = Except.ok () ∧
      ∀ c ∈ (synchronize (Except.ok [exEvent "1"]) (Except.ok ())
          (Except.ok [((none : Option String), "1")])
          (fun _ => Except.ok ()) (fun _ => Except.ok ())).2,
        isDeleteCallS c = false ∧ isAddCallS c = false) :=
  ⟨fun _ => Iff.rfl,
    c2_idempotence [exEvent "1"]
      (UploadTargetState.mk [((none : Option String), "3")] [])
      [((none : Option String), "1")]
      (fun _ => Except.ok ()) (fun _ => Except.ok ())
      (fun _ => Iff.rfl)⟩
